import Mathlib

/-!
Verification of the `summaries` repository scripts against their specification.

The development shallowly embeds the three scripts of the repository:
`summaries/scripts/preprocess_coal.py`, `summaries/scripts/train_transformer.py`
and (modelled from the spec, since its source is not available) the inference
script.  Pickled Python values are modelled by the inductive type `PVal`,
pandas dataframes by `DataFrame` (a list of column names plus a list of rows of
rational values), and script failures by the `Err` type.  Numeric values are
modelled as rationals; the `astype(np.float32)` cast is modelled as the
elementwise tag `F32.mk` (the rounding behaviour of IEEE float32 is outside
the scope of this embedding, the structural content of the cast is kept).
-/

namespace Summaries

/-- The elementwise `astype(np.float32)` cast is modelled as a tagging
constructor: a value of type `F32` is a rational that has been cast. -/
structure F32 where
  val : ℚ
deriving DecidableEq, Repr

/-- A pickled Python value: a 2-d numeric array (after the float32 cast),
a dict with string keys, a string, a natural number (used for timestamps),
or a list. -/
inductive PVal where
  | mat : List (List F32) → PVal
  | dict : List (String × PVal) → PVal
  | strV : String → PVal
  | natV : Nat → PVal
  | listV : List PVal → PVal

/-- The keys of a pickled dict, in insertion order (non-dicts have no keys). -/
def PVal.keys : PVal → List String
  | .dict kvs => kvs.map (·.1)
  | _ => []

/-- `d[k]` on a pickled dict: the value stored under key `k`, if present. -/
def PVal.lookup : PVal → String → Option PVal
  | .dict kvs, k => (kvs.find? (fun p => p.1 == k)).map (·.2)
  | _, _ => none

/-- Failure modes of the scripts: a failing `assert` statement, a `TypeError`
(e.g. `len(None)`), and a `KeyError` (column selection on a dataframe). -/
inductive Err where
  | assertionError
  | typeError
  | keyError
deriving DecidableEq, Repr

/-! ## `preprocess_coal.py` -/

/-- The parsed command-line arguments of `preprocess_coal`.  Each
`<name>=<size>` filename argument is modelled as an already-parsed pair. -/
structure Args where
  coaloracle : String
  directory : String
  filenames : List (String × Nat)
deriving DecidableEq, Repr

/-- A pandas dataframe: named columns and rows of numeric values. -/
structure DataFrame where
  columns : List String
  rows : List (List ℚ)
deriving DecidableEq, Repr

/-- `.sample(frac=1.0).reset_index(drop=True)`: the rows are re-ordered by a
permutation `perm` of the row indices (each index listed once). -/
def shuffleData (perm : List Nat) (df : DataFrame) : DataFrame :=
  ⟨df.columns, perm.filterMap (fun i => df.rows.get? i)⟩

/-- One step of building the Python dict
`{filename: int(size) for filename, size in ...}`: an existing key is updated
in place, a new key is appended. -/
def insertDict (d : List (String × Nat)) (k : String) (v : Nat) : List (String × Nat) :=
  if d.any (fun p => p.1 == k) then d.map (fun p => if p.1 == k then (k, v) else p)
  else d ++ [(k, v)]

/-- The `splits` dict of `preprocess_coal.__main__`, as an association list in
dict insertion order. -/
def buildSplits (pairs : List (String × Nat)) : List (String × Nat) :=
  pairs.foldl (fun d p => insertDict d p.1 p.2) []

/-- The two candidate column sets of `preprocess_coal.__main__`
(`data_column_candidates`), in source order. -/
def dataColumnCandidates : List (List String) :=
  [["segsites", "unif", "meandiff", "R2", "nhap", "fhap", "shap"],
   ["C1", "C2", "C3", "C4", "C5", "C6", "C7"]]

/-- The candidate-selection loop: `data_columns` is assigned by each candidate
whose columns are all present (`not set(candidate) - set(data.columns)`); the
loop does not break, so the last matching candidate is kept.  `none` models the
initial Python `None`. -/
def selectDataColumns (columns : List String) : Option (List String) :=
  dataColumnCandidates.foldl
    (fun acc cand => if cand.all (fun c => columns.contains c) then some cand else acc) none

/-- `split[cols].values`: for each row of the slice, the values at the given
columns (in the given column order). -/
def selRows (columns cols : List String) (rows : List (List ℚ)) : List (List ℚ) :=
  rows.map (fun r => cols.map (fun c => r.getD (columns.findIdx (fun x => x == c)) 0))

/-- `.astype(np.float32)` applied to a selected value matrix. -/
def toF32 (m : List (List ℚ)) : List (List F32) :=
  m.map (fun r => r.map F32.mk)

/-- `vars(args)` as it is pickled under the `'args'` key. -/
def encodeArgs (a : Args) : PVal :=
  .dict [("coaloracle", .strV a.coaloracle), ("directory", .strV a.directory),
         ("filenames", .listV (a.filenames.map (fun p => .strV (p.1 ++ "=" ++ toString p.2))))]

/-- The `result` dict pickled for one split: keys `'args'`, `'filename'` and
`'samples'`, the latter holding the float32 matrices `'theta'` and `'x'`. -/
def mkBundle (args : Args) (fn : String) (theta x : List (List ℚ)) : PVal :=
  .dict [("args", encodeArgs args), ("filename", .strV fn),
         ("samples", .dict [("theta", .mat (toF32 theta)), ("x", .mat (toF32 x))])]

/-- One pickled file written by `preprocess_coal`: its filename, the dataframe
slice it was built from (`data.iloc[offset:offset + size]`), and the pickled
dict. -/
structure WriteRec where
  filename : String
  slice : List (List ℚ)
  bundle : PVal

/-- The observable outcome of a script run: the files written, in order, and
the error that terminated the run (if any). -/
structure RunResult where
  writes : List WriteRec
  error : Option Err

/-- The write loop of `preprocess_coal.__main__`: for each `(filename, size)`
of the splits dict, slice `data.iloc[offset:offset + size]`, select the
`['theta', 'rho']` and summary-statistic columns (a missing column raises
`KeyError` before the file is written), and pickle the result dict. -/
def writeSplits (args : Args) (data : DataFrame) (dataColumns : List String) :
    List (String × Nat) → Nat → RunResult
  | [], _ => ⟨[], none⟩
  | (fn, size) :: rest, offset =>
    if (["theta", "rho"] ++ dataColumns).all (fun c => data.columns.contains c) then
      let slice := (data.rows.drop offset).take size
      let r := writeSplits args data dataColumns rest (offset + size)
      ⟨⟨fn, slice, mkBundle args fn (selRows data.columns ["theta", "rho"] slice)
          (selRows data.columns dataColumns slice)⟩ :: r.writes, r.error⟩
    else ⟨[], some .keyError⟩

/-- `preprocess_coal.__main__` after the dataframe has been loaded and
shuffled: build the splits dict, `assert total == len(data)`, run the
candidate-selection loop (`assert len(data_columns) == 7` raises `TypeError`
via `len(None)` when no candidate matched), then write the splits. -/
def preprocessCoal (args : Args) (data : DataFrame) : RunResult :=
  if ((buildSplits args.filenames).map (·.2)).sum = data.rows.length then
    match selectDataColumns data.columns with
    | none => ⟨[], some .typeError⟩
    | some dataColumns =>
      if dataColumns.length = 7 then
        writeSplits args data dataColumns (buildSplits args.filenames) 0
      else ⟨[], some .assertionError⟩
  else ⟨[], some .assertionError⟩

/-- The closed form of the files a successful write loop produces: the `i`-th
split is the slice of `size_i` rows starting at the sum of the earlier sizes,
bundled with the selected `['theta', 'rho']` and summary-statistic columns. -/
def expectedWrites (args : Args) (data : DataFrame) (dataColumns : List String) :
    List (String × Nat) → Nat → List WriteRec
  | [], _ => []
  | (fn, size) :: rest, offset =>
    let slice := (data.rows.drop offset).take size
    ⟨fn, slice, mkBundle args fn (selRows data.columns ["theta", "rho"] slice)
        (selRows data.columns dataColumns slice)⟩ ::
      expectedWrites args data dataColumns rest (offset + size)

/-- A concrete input dataframe carrying both the `theta`/`rho` parameter
columns and the `C1`..`C7` summary-statistic columns. -/
def exData : DataFrame :=
  ⟨["theta", "rho", "C1", "C2", "C3", "C4", "C5", "C6", "C7"],
   [[1, 2, 3, 4, 5, 6, 7, 8, 9], [10, 20, 30, 40, 50, 60, 70, 80, 90]]⟩

/-- Concrete arguments asking for a single split of the two rows of `exData`. -/
def exArgs : Args := ⟨"coaloracle.csv", "out", [("train", 2)]⟩

/-- A concrete input dataframe in which neither candidate column set is fully
present. -/
def exDataBad : DataFrame := ⟨["theta", "rho", "foo"], [[1, 2, 3]]⟩

/-- Concrete arguments for the one-row dataframe `exDataBad`. -/
def exArgsBad : Args := ⟨"coaloracle.csv", "out", [("a", 1)]⟩

/-! ## `train_transformer.py` -/

/-- `TrainConfig.create_data_loader`: unpickle the file and read the keys
`'data'` and `'params'` (a missing key raises `KeyError`), then build the
tensor dataset from the two arrays. -/
def createDataLoader (result : PVal) : Except Err (PVal × PVal) :=
  match result.lookup "data" with
  | none => .error .keyError
  | some d =>
    match result.lookup "params" with
    | none => .error .keyError
    | some p => .ok (d, p)

/-- The early-stopping bookkeeping of the epoch loop: `best_loss`
(`none` models the initial `np.inf`) and `n_bad_epochs`. -/
structure ESState where
  best : Option ℚ
  bad : Nat
deriving DecidableEq, Repr

/-- `best_loss = np.inf`, `n_bad_epochs = 0` before the first epoch. -/
def esInit : ESState := ⟨none, 0⟩

/-- `validation_loss + scheduler.threshold < best_loss` (any finite loss
improves the initial `np.inf`). -/
def improvesBest (threshold : ℚ) (best : Option ℚ) (loss : ℚ) : Bool :=
  match best with
  | none => true
  | some b => decide (loss + threshold < b)

/-- The per-epoch update of the early-stopping state: on improvement the best
loss is replaced and the bad-epoch counter reset, otherwise the counter is
incremented. -/
def esStep (threshold : ℚ) (s : ESState) (loss : ℚ) : ESState :=
  if improvesBest threshold s.best loss then ⟨some loss, 0⟩ else ⟨s.best, s.bad + 1⟩

/-- The early-stopping state after the first `n` epochs, where `losses k` is
the validation loss of epoch `k + 1`. -/
def esAfter (threshold : ℚ) (losses : Nat → ℚ) : Nat → ESState
  | 0 => esInit
  | n + 1 => esStep threshold (esAfter threshold losses n) (losses n)

/-- Python truthiness of `config.MAX_EPOCHS`: `None` and `0` are falsy. -/
def maxEpochsTruthy : Option Nat → Bool
  | none => false
  | some m => m != 0

/-- The loop breaks at epoch `n + 1` iff either
`config.MAX_EPOCHS and epoch == config.MAX_EPOCHS` (checked before the
early-stopping bookkeeping of that epoch) or, after updating the state with
that epoch's validation loss, `n_bad_epochs == 2 * scheduler.patience`. -/
def stopAt (maxEpochs : Option Nat) (threshold : ℚ) (patience : Nat)
    (losses : Nat → ℚ) (n : Nat) : Bool :=
  if maxEpochsTruthy maxEpochs && (n + 1 == maxEpochs.getD 0) then true
  else (esAfter threshold losses (n + 1)).bad == 2 * patience

/-- The loop stops first at epoch `n + 1`: the break condition holds there and
at no earlier epoch. -/
def stopsFirstAt (maxEpochs : Option Nat) (threshold : ℚ) (patience : Nat)
    (losses : Nat → ℚ) (n : Nat) : Prop :=
  stopAt maxEpochs threshold patience losses n = true ∧
    ∀ k < n, stopAt maxEpochs threshold patience losses k = false

/-- The epoch loop, run for at most `fuel` epochs: the number of epochs
executed if the loop breaks within the fuel, `none` otherwise. -/
def epochsRun (fuel : Nat) (maxEpochs : Option Nat) (threshold : ℚ) (patience : Nat)
    (losses : Nat → ℚ) : Option Nat :=
  ((List.range fuel).find? (fun n => stopAt maxEpochs threshold patience losses n)).map (· + 1)

/-- The parsed command-line arguments of `train_transformer`. -/
structure TrainArgs where
  device : String
  config : String
  train : String
  validation : String
  output : String
deriving DecidableEq, Repr

/-- `vars(args)` of `train_transformer` as pickled under `'args'`. -/
def encodeTrainArgs (a : TrainArgs) : PVal :=
  .dict [("device", .strV a.device), ("config", .strV a.config), ("train", .strV a.train),
         ("validation", .strV a.validation), ("output", .strV a.output)]

/-- `train_transformer.__main__` after the data loaders are built:
`start = datetime.now()` is read at entry (`clock 0`), the epoch loop runs
(with the early-stopping semantics of `stopAt`), and on termination a single
dict with keys `'args'`, `'start'`, `'end'` (`datetime.now()` read at the
dump, `clock 1`) and `'transformer'` is pickled to the output file.  `clock`
enumerates the values returned by the successive `datetime.now()` calls. -/
def trainMain (clock : Nat → Nat) (fuel : Nat) (args : TrainArgs) (maxEpochs : Option Nat)
    (threshold : ℚ) (patience : Nat) (losses : Nat → ℚ) (transformer : PVal) : Option PVal :=
  let start := clock 0
  match epochsRun fuel maxEpochs threshold patience losses with
  | none => none
  | some _ =>
    some (.dict [("args", encodeTrainArgs args), ("start", .natV start),
                 ("end", .natV (clock 1)), ("transformer", transformer)])

/-! ### The effect trace of one epoch (gradient mode and parameter updates) -/

/-- The operations an epoch of the training loop performs on the framework
state, in source order: the training pass (`optim.zero_grad()`, forward, loss,
`backward()`, `optim.step()` per batch), the `no_grad()` context entry/exit,
the validation forwards, and `scheduler.step(...)`. -/
inductive Op where
  | zeroGrad
  | forward
  | computeLoss
  | backward
  | optimStep
  | noGradPush
  | noGradPop
  | schedulerStep
deriving DecidableEq, Repr

/-- The framework state the epoch manipulates: the transformer parameters and
whether gradient tracking is enabled. -/
structure MachState (P : Type) where
  params : P
  gradMode : Bool

/-- Execute one operation: only `optim.step()` changes the parameters (by the
optimizer's update function `stepFn`), and only the `no_grad()` context
entry/exit toggles gradient tracking (the script body runs with tracking
enabled). -/
def execOp {P : Type} (stepFn : P → P) (s : MachState P) : Op → MachState P
  | .optimStep => ⟨stepFn s.params, s.gradMode⟩
  | .noGradPush => ⟨s.params, false⟩
  | .noGradPop => ⟨s.params, true⟩
  | _ => s

/-- Execute a list of operations in order. -/
def execOps {P : Type} (stepFn : P → P) (s : MachState P) (ops : List Op) : MachState P :=
  ops.foldl (execOp stepFn) s

/-- Execute a list of operations, recording for each the state in which it was
executed. -/
def execTrace {P : Type} (stepFn : P → P) : MachState P → List Op → List (Op × MachState P)
  | _, [] => []
  | s, op :: rest => (op, s) :: execTrace stepFn (execOp stepFn s op) rest

/-- The operations of one training batch (lines 114–120 of the script). -/
def trainBatchOps : List Op :=
  [.zeroGrad, .forward, .computeLoss, .backward, .optimStep]

/-- The operations of the validation pass (lines 128–134): everything inside
`with no_grad():`, one forward and one loss per validation batch. -/
def validationOps (nVal : Nat) : List Op :=
  .noGradPush :: (List.replicate nVal [Op.forward, Op.computeLoss]).flatten ++ [.noGradPop]

/-- The operation trace of one full epoch: the training pass over `nTrain`
batches, the validation pass over `nVal` batches, then `scheduler.step`. -/
def epochOps (nTrain nVal : Nat) : List Op :=
  (List.replicate nTrain trainBatchOps).flatten ++ validationOps nVal ++ [.schedulerStep]

/-! ## The inference script -/

/-- Modelled from the spec: the inference script (`summaries/scripts/infer.py`)
is not among the available sources, only its tests are.  The spec states that
an inference run produces "a serialized bundle of {posterior samples array of
shape (observations, draws, parameters)}": for each observed data point the
estimator selects posterior draws from the rows of the simulated parameter
matrix; `select o` gives the indices of the simulated samples accepted for
observation `o`, of which the first `nDraws` are kept. -/
def inferSamples (observed : List (List ℚ)) (simParams : List (List ℚ))
    (select : List ℚ → List Nat) (nDraws : Nat) : List (List (List ℚ)) :=
  observed.map (fun o => ((select o).take nDraws).map (fun j => simParams.getD j []))

/-- Modelled from the spec: the inference result bundle stores the posterior
samples array under the `'samples'` key. -/
def inferBundle (samples : List (List (List ℚ))) : PVal :=
  .dict [("samples", .listV (samples.map (fun m => .mat (toF32 m))))]

/-- The shape of a 3-d array is `(a, b, c)`: `a` outer entries, each a matrix
of `b` rows of length `c`. -/
def shape3 (xs : List (List (List ℚ))) (a b c : Nat) : Prop :=
  xs.length = a ∧ ∀ m ∈ xs, m.length = b ∧ ∀ r ∈ m, r.length = c

/-- The placeholder record used as the default of positional lookups into the
list of written files. -/
def noWrite : WriteRec := ⟨"", [], .dict []⟩

/-- The slice of rows the `i`-th split receives when the declared sizes are
`sizes` and slicing starts at row `offset`. -/
def sliceAt (data : DataFrame) (sizes : List Nat) (offset i : Nat) : List (List ℚ) :=
  (data.rows.drop (offset + (sizes.take i).sum)).take (sizes.getD i 0)

/-- Concrete `train_transformer` arguments for witnesses. -/
def exTrainArgs : TrainArgs :=
  ⟨"cpu", "CoalescentMixtureDensityConfig", "train.pkl", "validation.pkl", "output.pkl"⟩

/-- The output bundle of the concrete one-epoch training run used as a
witness: ticks 0 and 1 of the identity clock. -/
def exTrainOut : PVal :=
  .dict [("args", encodeTrainArgs exTrainArgs), ("start", .natV 0),
         ("end", .natV 1), ("transformer", .strV "fitted")]

/-! ## Helper lemmas about the write loop -/

theorem selRows_length (columns cols : List String) (rows : List (List ℚ)) :
    (selRows columns cols rows).length = rows.length := by
  simp [selRows]

theorem writeSplits_of_all (args : Args) (data : DataFrame) (dc : List String)
    (h : ((["theta", "rho"] ++ dc).all (fun c => data.columns.contains c)) = true) :
    ∀ (splits : List (String × Nat)) (offset : Nat),
      writeSplits args data dc splits offset = ⟨expectedWrites args data dc splits offset, none⟩
  | [], _ => rfl
  | (fn, size) :: rest, offset => by
    simp only [writeSplits, expectedWrites, h, if_true,
      writeSplits_of_all args data dc h rest (offset + size)]

theorem writeSplits_error_none (args : Args) (data : DataFrame) (dc : List String)
    (fn : String) (size : Nat) (rest : List (String × Nat)) (offset : Nat)
    (h : (writeSplits args data dc ((fn, size) :: rest) offset).error = none) :
    ((["theta", "rho"] ++ dc).all (fun c => data.columns.contains c)) = true := by
  by_contra hc
  rw [writeSplits, if_neg hc] at h
  exact Option.noConfusion h

theorem expectedWrites_length (args : Args) (data : DataFrame) (dc : List String) :
    ∀ (splits : List (String × Nat)) (offset : Nat),
      (expectedWrites args data dc splits offset).length = splits.length
  | [], _ => rfl
  | (fn, size) :: rest, offset => by
    simp only [expectedWrites, List.length_cons,
      expectedWrites_length args data dc rest (offset + size)]

theorem expectedWrites_flatten (args : Args) (data : DataFrame) (dc : List String) :
    ∀ (splits : List (String × Nat)) (offset : Nat),
      ((expectedWrites args data dc splits offset).map (·.slice)).flatten
        = (data.rows.drop offset).take ((splits.map (·.2)).sum)
  | [], _ => by simp [expectedWrites]
  | (fn, size) :: rest, offset => by
    simp only [expectedWrites, List.map_cons, List.flatten_cons,
      expectedWrites_flatten args data dc rest (offset + size), List.sum_cons]
    rw [List.take_add, List.drop_drop]

theorem expectedWrites_name_len (args : Args) (data : DataFrame) (dc : List String) :
    ∀ (splits : List (String × Nat)) (offset : Nat),
      offset + (splits.map (·.2)).sum ≤ data.rows.length →
      (expectedWrites args data dc splits offset).map (fun w => (w.filename, w.slice.length))
        = splits
  | [], _, _ => rfl
  | (fn, size) :: rest, offset, h => by
    have hsz : offset + size ≤ data.rows.length := by
      refine le_trans ?_ h
      simp only [List.map_cons, List.sum_cons, ← Nat.add_assoc]
      exact Nat.le_add_right _ _
    have hlen : ((data.rows.drop offset).take size).length = size := by
      simp only [List.length_take, List.length_drop]
      exact Nat.min_eq_left (Nat.le_sub_of_add_le (Nat.add_comm offset size ▸ hsz))
    have hrest : (offset + size) + (rest.map (·.2)).sum ≤ data.rows.length := by
      simpa [Nat.add_assoc] using h
    simp only [expectedWrites, List.map_cons, hlen,
      expectedWrites_name_len args data dc rest (offset + size) hrest]

theorem expectedWrites_getD (args : Args) (data : DataFrame) (dc : List String) :
    ∀ (splits : List (String × Nat)) (offset i : Nat), i < splits.length →
      (expectedWrites args data dc splits offset).getD i noWrite =
        ⟨(splits.map (·.1)).getD i "",
         sliceAt data (splits.map (·.2)) offset i,
         mkBundle args ((splits.map (·.1)).getD i "")
           (selRows data.columns ["theta", "rho"] (sliceAt data (splits.map (·.2)) offset i))
           (selRows data.columns dc (sliceAt data (splits.map (·.2)) offset i))⟩
  | [], _, i, hi => absurd hi (Nat.not_lt_zero i)
  | (fn, size) :: rest, offset, 0, _ => by
    simp [expectedWrites, sliceAt]
  | (fn, size) :: rest, offset, i + 1, hi => by
    have hi' : i < rest.length := Nat.lt_of_succ_lt_succ hi
    simp only [expectedWrites, List.getD_cons_succ, List.map_cons,
      expectedWrites_getD args data dc rest (offset + size) i hi', sliceAt,
      List.take_succ_cons, List.sum_cons, List.getD_cons_succ, Nat.add_assoc]

theorem sliceAt_length (data : DataFrame) (sizes : List Nat) (i : Nat)
    (hi : i < sizes.length) (h : sizes.sum ≤ data.rows.length) :
    (sliceAt data sizes 0 i).length = sizes.getD i 0 := by
  have hgd : sizes.getD i 0 = sizes[i] := by
    simp [List.getD_eq_getElem?_getD, List.getElem?_eq_getElem hi]
  have hsum : (sizes.take i).sum + sizes[i] ≤ sizes.sum := by
    conv_rhs => rw [← List.take_append_drop i sizes]
    rw [List.sum_append, ← List.getElem_cons_drop sizes i hi, List.sum_cons]
    exact Nat.add_le_add_left (Nat.le_add_right _ _) _
  simp only [sliceAt, Nat.zero_add, List.length_take, List.length_drop, hgd]
  exact Nat.min_eq_left (Nat.le_sub_of_add_le
    (Nat.add_comm (sizes.take i).sum sizes[i] ▸ le_trans hsum h))

theorem buildSplits_go_of_nodup :
    ∀ (pairs acc : List (String × Nat)),
      (acc.map (·.1) ++ pairs.map (·.1)).Nodup →
      pairs.foldl (fun d p => insertDict d p.1 p.2) acc = acc ++ pairs
  | [], acc, _ => by simp
  | (k, v) :: rest, acc, h => by
    have hins : insertDict acc k v = acc ++ [(k, v)] := by
      have hk : k ∉ acc.map (·.1) := by
        rw [List.nodup_append] at h
        exact fun hmem => h.2.2 hmem (by simp)
      rw [insertDict, if_neg]
      intro hany
      rcases List.any_eq_true.mp hany with ⟨p, hp, he⟩
      exact hk (List.mem_map.mpr ⟨p, hp, (beq_iff_eq.mp he)⟩)
    have h' : ((acc ++ [(k, v)]).map (·.1) ++ rest.map (·.1)).Nodup := by
      simpa [List.append_assoc] using h
    calc ((k, v) :: rest).foldl (fun d p => insertDict d p.1 p.2) acc
        = rest.foldl (fun d p => insertDict d p.1 p.2) (acc ++ [(k, v)]) := by
          simp [List.foldl_cons, hins]
      _ = (acc ++ [(k, v)]) ++ rest := buildSplits_go_of_nodup rest (acc ++ [(k, v)]) h'
      _ = acc ++ (k, v) :: rest := by simp

theorem buildSplits_of_nodup (pairs : List (String × Nat))
    (h : (pairs.map (·.1)).Nodup) : buildSplits pairs = pairs := by
  simpa using buildSplits_go_of_nodup pairs [] (by simpa using h)

theorem selectDataColumns_length (columns : List String) (dc : List String)
    (h : selectDataColumns columns = some dc) : dc.length = 7 := by
  unfold selectDataColumns dataColumnCandidates at h
  simp only [List.foldl] at h
  split at h
  · injection h with h
    rw [← h]
    rfl
  · split at h
    · injection h with h
      rw [← h]
      rfl
    · exact Option.noConfusion h

theorem preprocessCoal_success (args : Args) (data : DataFrame)
    (h : (preprocessCoal args data).error = none) :
    ∃ dc, selectDataColumns data.columns = some dc ∧
      ((buildSplits args.filenames).map (·.2)).sum = data.rows.length ∧
      (preprocessCoal args data).writes
        = expectedWrites args data dc (buildSplits args.filenames) 0 := by
  unfold preprocessCoal at h ⊢
  by_cases ht : ((buildSplits args.filenames).map (·.2)).sum = data.rows.length
  · rw [if_pos ht] at h ⊢
    cases hdc : selectDataColumns data.columns with
    | none =>
      rw [hdc] at h
      exact Option.noConfusion h
    | some dc =>
      have h7 : dc.length = 7 := selectDataColumns_length _ _ hdc
      rw [hdc] at h
      dsimp only at h ⊢
      rw [if_pos h7] at h ⊢
      refine ⟨dc, rfl, ht, ?_⟩
      cases hsp : buildSplits args.filenames with
      | nil => rfl
      | cons p rest =>
        rw [hsp] at h
        obtain ⟨fn, size⟩ := p
        have hall := writeSplits_error_none args data dc fn size rest 0 h
        rw [writeSplits_of_all args data dc hall]
  · rw [if_neg ht] at h
    exact Option.noConfusion h

theorem writeSplits_bundle_mem (args : Args) (data : DataFrame) (dc : List String) :
    ∀ (splits : List (String × Nat)) (offset : Nat) (w : WriteRec),
      w ∈ (writeSplits args data dc splits offset).writes →
      ∃ fn theta x, w.bundle = mkBundle args fn theta x
  | [], _, w, hw => absurd hw (List.not_mem_nil w)
  | (fn, size) :: rest, offset, w, hw => by
    by_cases hall : ((["theta", "rho"] ++ dc).all (fun c => data.columns.contains c)) = true
    · simp only [writeSplits, if_pos hall] at hw
      rcases List.mem_cons.mp hw with h | h
      · exact ⟨fn, _, _, by rw [h]⟩
      · exact writeSplits_bundle_mem args data dc rest (offset + size) w h
    · rw [writeSplits, if_neg hall] at hw
      exact absurd hw (List.not_mem_nil w)

/-! ## Claims about `preprocess_coal.py` -/

/-- Claim C1 (counterexample): a concrete `preprocess_coal` run succeeds and
writes one bundle, and `TrainConfig.create_data_loader` fails on that bundle
with a `KeyError` (the bundle has no `'data'` key), so the claim that every
preprocessing bundle is consumable by training is false. -/
theorem claim_C1_counterexample :
    (preprocessCoal exArgs exData).error = none ∧
      (preprocessCoal exArgs exData).writes.map (fun w => createDataLoader w.bundle)
        = [.error .keyError] :=
  ⟨rfl, rfl⟩

/-- Claim C1 (amended): every sample bundle written by a `preprocess_coal` run
has top-level keys `'args'`, `'filename'`, `'samples'` — not the `'data'` and
`'params'` keys `TrainConfig.create_data_loader` reads — so loading it with
`create_data_loader` fails with a `KeyError`. -/
theorem claim_C1_amended (args : Args) (data : DataFrame) (w : WriteRec)
    (hw : w ∈ (preprocessCoal args data).writes) :
    createDataLoader w.bundle = .error .keyError := by
  have hb : ∃ fn theta x, w.bundle = mkBundle args fn theta x := by
    unfold preprocessCoal at hw
    split at hw
    · split at hw
      · exact absurd hw (List.not_mem_nil w)
      · split at hw
        · exact writeSplits_bundle_mem args data _ _ 0 w hw
        · exact absurd hw (List.not_mem_nil w)
    · exact absurd hw (List.not_mem_nil w)
  obtain ⟨fn, theta, x, hb⟩ := hb
  rw [hb]
  rfl

/-- Claim C1 (witness): the amended statement at the concrete run. -/
theorem claim_C1_witness :
    createDataLoader (((preprocessCoal exArgs exData).writes.getD 0 noWrite).bundle)
      = .error .keyError :=
  claim_C1_amended exArgs exData ((preprocessCoal exArgs exData).writes.getD 0 noWrite)
    (List.Mem.head _)

/-- Claim C2 (counterexample): on a CSV whose columns are
`theta, rho, foo` (neither candidate set fully present, split sizes correct)
`preprocess_coal` fails with a `TypeError` — `len(None)` raised while
evaluating the assertion condition — not with an `AssertionError`. -/
theorem claim_C2_counterexample :
    (preprocessCoal exArgsBad exDataBad).error = some Err.typeError ∧
      some Err.typeError ≠ some Err.assertionError :=
  ⟨rfl, by decide⟩

/-- Claim C2 (amended): for every input CSV in which neither candidate column
set is fully present (and whose split sizes pass the earlier sample-count
assertion), `preprocess_coal` fails with a `TypeError` raised by `len(None)`
inside the `assert len(data_columns) == 7` statement, and writes no file. -/
theorem claim_C2_amended (args : Args) (data : DataFrame)
    (hs : ((buildSplits args.filenames).map (·.2)).sum = data.rows.length)
    (h1 : ¬ ∀ c ∈ ["segsites", "unif", "meandiff", "R2", "nhap", "fhap", "shap"],
      c ∈ data.columns)
    (h2 : ¬ ∀ c ∈ ["C1", "C2", "C3", "C4", "C5", "C6", "C7"], c ∈ data.columns) :
    preprocessCoal args data = ⟨[], some Err.typeError⟩ := by
  have hc1 : (["segsites", "unif", "meandiff", "R2", "nhap", "fhap", "shap"].all
      (fun c => data.columns.contains c)) = false := by
    by_contra hc
    rw [Bool.not_eq_false] at hc
    exact h1 fun c hcm => by simpa using List.all_eq_true.mp hc c hcm
  have hc2 : (["C1", "C2", "C3", "C4", "C5", "C6", "C7"].all
      (fun c => data.columns.contains c)) = false := by
    by_contra hc
    rw [Bool.not_eq_false] at hc
    exact h2 fun c hcm => by simpa using List.all_eq_true.mp hc c hcm
  have hsel : selectDataColumns data.columns = none := by
    unfold selectDataColumns dataColumnCandidates
    simp only [List.foldl]
    rw [if_neg fun hc => Bool.false_ne_true (hc2 ▸ hc),
      if_neg fun hc => Bool.false_ne_true (hc1 ▸ hc)]
  unfold preprocessCoal
  rw [if_pos hs, hsel]

/-- Claim C2 (witness): the amended statement at the concrete bad-column run. -/
theorem claim_C2_witness :
    preprocessCoal exArgsBad exDataBad = ⟨[], some Err.typeError⟩ :=
  claim_C2_amended exArgsBad exDataBad (by decide) (by decide) (by decide)

/-- Claim C5: when the declared split sizes do not sum to the number of rows
of the loaded CSV, `preprocess_coal` fails with an `AssertionError` and no
output file is written. -/
theorem claim_C5 (args : Args) (data : DataFrame)
    (h : ((buildSplits args.filenames).map (·.2)).sum ≠ data.rows.length) :
    preprocessCoal args data = ⟨[], some Err.assertionError⟩ := by
  unfold preprocessCoal
  rw [if_neg h]

/-- Claim C5 (witness): asking for one sample from the two-row dataframe
aborts with the sample-count assertion and writes nothing. -/
theorem claim_C5_witness :
    preprocessCoal exArgsBad exData = ⟨[], some Err.assertionError⟩ :=
  claim_C5 exArgsBad exData (by decide)

/-- Claim C10: when both candidate column sets are fully present in the input
CSV, the candidate loop (which does not break) leaves the last matching
candidate, so `preprocess_coal` selects the `C1`..`C7` columns. -/
theorem claim_C10 (columns : List String)
    (h1 : ∀ c ∈ ["segsites", "unif", "meandiff", "R2", "nhap", "fhap", "shap"], c ∈ columns)
    (h2 : ∀ c ∈ ["C1", "C2", "C3", "C4", "C5", "C6", "C7"], c ∈ columns) :
    selectDataColumns columns = some ["C1", "C2", "C3", "C4", "C5", "C6", "C7"] := by
  have hc1 : (["segsites", "unif", "meandiff", "R2", "nhap", "fhap", "shap"].all
      (fun c => columns.contains c)) = true :=
    List.all_eq_true.mpr fun c hc => by simpa using h1 c hc
  have hc2 : (["C1", "C2", "C3", "C4", "C5", "C6", "C7"].all
      (fun c => columns.contains c)) = true :=
    List.all_eq_true.mpr fun c hc => by simpa using h2 c hc
  unfold selectDataColumns dataColumnCandidates
  simp only [List.foldl]
  rw [if_pos hc2]

/-- Claim C10 (witness): on a header containing both candidate sets the
`C1`..`C7` columns are selected. -/
theorem claim_C10_witness :
    selectDataColumns ["theta", "rho", "segsites", "unif", "meandiff", "R2", "nhap",
        "fhap", "shap", "C1", "C2", "C3", "C4", "C5", "C6", "C7"]
      = some ["C1", "C2", "C3", "C4", "C5", "C6", "C7"] :=
  claim_C10 _ (by decide) (by decide)

/-- Claim C6: every split file written by a successful `preprocess_coal` run
contains the dict with the parsed arguments under `'args'`, the split's
filename under `'filename'` and, under `'samples'`, the parameter matrix
`'theta'` built from the columns `['theta', 'rho']` and the summary-statistic
matrix `'x'` built from the 7 selected data columns, both cast to float32 (see
`mkBundle`), each with exactly the declared split size as its number of
rows. -/
theorem claim_C6 (args : Args) (data : DataFrame)
    (h : (preprocessCoal args data).error = none) :
    ∃ dc, selectDataColumns data.columns = some dc ∧
      (preprocessCoal args data).writes.length = (buildSplits args.filenames).length ∧
      ∀ i, i < (buildSplits args.filenames).length →
        ((preprocessCoal args data).writes.getD i noWrite).bundle
            = mkBundle args (((buildSplits args.filenames).map (·.1)).getD i "")
              (selRows data.columns ["theta", "rho"]
                (sliceAt data ((buildSplits args.filenames).map (·.2)) 0 i))
              (selRows data.columns dc
                (sliceAt data ((buildSplits args.filenames).map (·.2)) 0 i)) ∧
          (selRows data.columns ["theta", "rho"]
              (sliceAt data ((buildSplits args.filenames).map (·.2)) 0 i)).length
            = ((buildSplits args.filenames).map (·.2)).getD i 0 ∧
          (selRows data.columns dc
              (sliceAt data ((buildSplits args.filenames).map (·.2)) 0 i)).length
            = ((buildSplits args.filenames).map (·.2)).getD i 0 := by
  obtain ⟨dc, hdc, ht, hw⟩ := preprocessCoal_success args data h
  refine ⟨dc, hdc, ?_, ?_⟩
  · rw [hw, expectedWrites_length]
  · intro i hi
    have hi' : i < ((buildSplits args.filenames).map (·.2)).length := by
      rw [List.length_map]
      exact hi
    have hslen : (sliceAt data ((buildSplits args.filenames).map (·.2)) 0 i).length
        = ((buildSplits args.filenames).map (·.2)).getD i 0 :=
      sliceAt_length data _ i hi' (le_of_eq ht)
    rw [hw, expectedWrites_getD args data dc _ 0 i hi]
    exact ⟨rfl, by rw [selRows_length, hslen], by rw [selRows_length, hslen]⟩

/-- Claim C6 (witness): the statement at the concrete successful run. -/
theorem claim_C6_witness :
    ∃ dc, selectDataColumns exData.columns = some dc ∧
      (preprocessCoal exArgs exData).writes.length = (buildSplits exArgs.filenames).length ∧
      ∀ i, i < (buildSplits exArgs.filenames).length →
        ((preprocessCoal exArgs exData).writes.getD i noWrite).bundle
            = mkBundle exArgs (((buildSplits exArgs.filenames).map (·.1)).getD i "")
              (selRows exData.columns ["theta", "rho"]
                (sliceAt exData ((buildSplits exArgs.filenames).map (·.2)) 0 i))
              (selRows exData.columns dc
                (sliceAt exData ((buildSplits exArgs.filenames).map (·.2)) 0 i)) ∧
          (selRows exData.columns ["theta", "rho"]
              (sliceAt exData ((buildSplits exArgs.filenames).map (·.2)) 0 i)).length
            = ((buildSplits exArgs.filenames).map (·.2)).getD i 0 ∧
          (selRows exData.columns dc
              (sliceAt exData ((buildSplits exArgs.filenames).map (·.2)) 0 i)).length
            = ((buildSplits exArgs.filenames).map (·.2)).getD i 0 :=
  claim_C6 exArgs exData rfl

/-- Claim C8: the splits written by a successful `preprocess_coal` run
partition the shuffled dataframe: concatenated in write order they give back
every row exactly once, the written filenames and row counts are exactly the
declared splits, each written slice is the consecutive row range starting at
the sum of the earlier declared sizes, and when the given filenames are
distinct the splits are taken in exactly the order the filenames were
given. -/
theorem claim_C8 (args : Args) (data : DataFrame)
    (h : (preprocessCoal args data).error = none) :
    ((preprocessCoal args data).writes.map (·.slice)).flatten = data.rows ∧
      (preprocessCoal args data).writes.map (fun w => (w.filename, w.slice.length))
          = buildSplits args.filenames ∧
      (∀ i, i < (buildSplits args.filenames).length →
        ((preprocessCoal args data).writes.getD i noWrite).slice
          = sliceAt data ((buildSplits args.filenames).map (·.2)) 0 i) ∧
      ((args.filenames.map (·.1)).Nodup → buildSplits args.filenames = args.filenames) := by
  obtain ⟨dc, hdc, ht, hw⟩ := preprocessCoal_success args data h
  refine ⟨?_, ?_, ?_, buildSplits_of_nodup args.filenames⟩
  · rw [hw, expectedWrites_flatten, ht, List.drop_zero, List.take_length]
  · rw [hw, expectedWrites_name_len]
    rw [Nat.zero_add, ht]
  · intro i hi
    rw [hw, expectedWrites_getD args data dc _ 0 i hi]

/-- Claim C8 (witness): the statement at the concrete successful run. -/
theorem claim_C8_witness :
    ((preprocessCoal exArgs exData).writes.map (·.slice)).flatten = exData.rows ∧
      (preprocessCoal exArgs exData).writes.map (fun w => (w.filename, w.slice.length))
          = buildSplits exArgs.filenames ∧
      (∀ i, i < (buildSplits exArgs.filenames).length →
        ((preprocessCoal exArgs exData).writes.getD i noWrite).slice
          = sliceAt exData ((buildSplits exArgs.filenames).map (·.2)) 0 i) ∧
      ((exArgs.filenames.map (·.1)).Nodup → buildSplits exArgs.filenames = exArgs.filenames) :=
  claim_C8 exArgs exData rfl

/-! ## Claims about the `train_transformer` epoch loop -/

theorem stopAt_none (threshold : ℚ) (patience : Nat) (losses : Nat → ℚ) (n : Nat) :
    stopAt none threshold patience losses n
      = ((esAfter threshold losses (n + 1)).bad == 2 * patience) := by
  simp [stopAt, maxEpochsTruthy]

/-- Claim C3 (counterexample): with `MAX_EPOCHS` unset and the scheduler
defaults (`threshold = 1e-4`, `patience = 10`), a validation-loss sequence
that keeps improving by a full unit every epoch never triggers the break
condition: the epoch loop does not terminate, so the claim that the loop
always terminates is false. -/
theorem claim_C3_counterexample :
    ¬ ∃ n, stopAt none (1 / 10000) 10 (fun k => -(k : ℚ)) n = true := by
  have hes : ∀ n, esAfter (1 / 10000) (fun k => -(k : ℚ)) (n + 1) = ⟨some (-(n : ℚ)), 0⟩ := by
    intro n
    induction n with
    | zero =>
      show esStep (1 / 10000) esInit (-((0 : ℕ) : ℚ)) = _
      simp [esStep, esInit, improvesBest]
    | succ m ih =>
      show esStep (1 / 10000) (esAfter (1 / 10000) (fun k => -(k : ℚ)) (m + 1))
          (-((m + 1 : ℕ) : ℚ)) = _
      rw [ih]
      have hlt : (-((m + 1 : ℕ) : ℚ) + 1 / 10000 < -(m : ℚ)) := by
        push_cast
        linarith
      simp only [esStep, improvesBest, decide_eq_true_eq]
      rw [if_pos hlt]
  rintro ⟨n, hn⟩
  rw [stopAt_none, hes n] at hn
  simp at hn

/-- Claim C3 (amended): if `MAX_EPOCHS` is set to a nonzero value the loop
stops after at most `MAX_EPOCHS` epochs; with `MAX_EPOCHS` unset, *provided*
the consecutive-bad-epoch counter ever reaches `2 * scheduler.patience`, the
loop stops at the first epoch at which it does.  (Without that proviso the
loop need not terminate — see the counterexample.) -/
theorem claim_C3_amended (threshold : ℚ) (patience : Nat) (losses : Nat → ℚ) :
    (∀ m : Nat, m ≠ 0 →
      ∃ n, stopsFirstAt (some m) threshold patience losses n ∧ n + 1 ≤ m) ∧
      ((∃ n, (esAfter threshold losses (n + 1)).bad = 2 * patience) →
        ∃ n, stopsFirstAt none threshold patience losses n ∧
          (esAfter threshold losses (n + 1)).bad = 2 * patience ∧
          ∀ k < n, (esAfter threshold losses (k + 1)).bad ≠ 2 * patience) := by
  constructor
  · intro m hm
    have hstop : stopAt (some m) threshold patience losses (m - 1) = true := by
      rw [stopAt, if_pos]
      simp only [Bool.and_eq_true, maxEpochsTruthy, bne_iff_ne, ne_eq, beq_iff_eq,
        Option.getD_some]
      exact ⟨hm, Nat.succ_pred_eq_of_pos (Nat.pos_of_ne_zero hm)⟩
    have hex : ∃ n, stopAt (some m) threshold patience losses n = true := ⟨m - 1, hstop⟩
    refine ⟨Nat.find hex, ⟨Nat.find_spec hex, fun k hk => ?_⟩, ?_⟩
    · have := Nat.find_min hex hk
      simpa using this
    · have hle : Nat.find hex ≤ m - 1 := Nat.find_le hstop
      omega
  · intro hex0
    have hex : ∃ n, stopAt none threshold patience losses n = true := by
      obtain ⟨n, hn⟩ := hex0
      exact ⟨n, by rw [stopAt_none]; exact beq_iff_eq.mpr hn⟩
    refine ⟨Nat.find hex, ⟨Nat.find_spec hex, fun k hk => ?_⟩, ?_, fun k hk => ?_⟩
    · have := Nat.find_min hex hk
      simpa using this
    · have := Nat.find_spec hex
      rw [stopAt_none] at this
      exact beq_iff_eq.mp this
    · intro hbad
      have := Nat.find_min hex hk
      rw [stopAt_none] at this
      exact this (beq_iff_eq.mpr hbad)

/-- Claim C3 (witness): the amended statement at a concrete loss sequence
that stops immediately, under both a set and an unset `MAX_EPOCHS`. -/
theorem claim_C3_witness :
    (∃ n, stopsFirstAt (some 5) 0 0 (fun _ => (0 : ℚ)) n ∧ n + 1 ≤ 5) ∧
      (∃ n, stopsFirstAt none 0 0 (fun _ => (0 : ℚ)) n ∧
        (esAfter 0 (fun _ => (0 : ℚ)) (n + 1)).bad = 2 * 0 ∧
        ∀ k < n, (esAfter 0 (fun _ => (0 : ℚ)) (k + 1)).bad ≠ 2 * 0) :=
  ⟨(claim_C3_amended 0 0 (fun _ => 0)).1 5 (by decide),
   (claim_C3_amended 0 0 (fun _ => 0)).2 ⟨0, rfl⟩⟩

/-- Claim C7: every completed `train_transformer` run pickles, once at the
end, a dict with exactly the keys `'args'`, `'start'`, `'end'` and
`'transformer'`, where `'args'` holds the parsed arguments and the start
timestamp was taken strictly before the end timestamp. -/
theorem claim_C7 (clock : Nat → Nat) (hclock : StrictMono clock) (fuel : Nat)
    (args : TrainArgs) (maxEpochs : Option Nat) (threshold : ℚ) (patience : Nat)
    (losses : Nat → ℚ) (transformer : PVal) (out : PVal)
    (h : trainMain clock fuel args maxEpochs threshold patience losses transformer
      = some out) :
    out.keys = ["args", "start", "end", "transformer"] ∧
      out.lookup "args" = some (encodeTrainArgs args) ∧
      out.lookup "start" = some (.natV (clock 0)) ∧
      out.lookup "end" = some (.natV (clock 1)) ∧
      clock 0 < clock 1 := by
  unfold trainMain at h
  cases he : epochsRun fuel maxEpochs threshold patience losses with
  | none =>
    rw [he] at h
    exact Option.noConfusion h
  | some n =>
    rw [he] at h
    dsimp only at h
    injection h with h
    rw [← h]
    exact ⟨rfl, rfl, rfl, rfl, hclock Nat.zero_lt_one⟩

/-- Claim C7 (witness): the statement at a concrete one-epoch run with the
identity clock. -/
theorem claim_C7_witness :
    exTrainOut.keys = ["args", "start", "end", "transformer"] ∧
      exTrainOut.lookup "args" = some (encodeTrainArgs exTrainArgs) ∧
      exTrainOut.lookup "start" = some (.natV (id 0)) ∧
      exTrainOut.lookup "end" = some (.natV (id 1)) ∧
      id 0 < id 1 :=
  claim_C7 id strictMono_id 1 exTrainArgs none 0 0 (fun _ => 0) (.strV "fitted")
    exTrainOut rfl

/-! ## Claim about the validation pass (frame/effect) -/

theorem execOp_params_of_ne {P : Type} (stepFn : P → P) (s : MachState P) (op : Op)
    (h : op ≠ Op.optimStep) : (execOp stepFn s op).params = s.params := by
  cases op <;> first | rfl | exact absurd rfl h

theorem execOps_params_of_not_mem {P : Type} (stepFn : P → P) :
    ∀ (ops : List Op) (s : MachState P), Op.optimStep ∉ ops →
      (execOps stepFn s ops).params = s.params
  | [], _, _ => rfl
  | op :: rest, s, h => by
    have hop : op ≠ Op.optimStep := fun he => h (he ▸ List.Mem.head rest)
    have hrest : Op.optimStep ∉ rest := fun hm => h (List.Mem.tail op hm)
    calc (execOps stepFn s (op :: rest)).params
        = (execOps stepFn (execOp stepFn s op) rest).params := rfl
      _ = (execOp stepFn s op).params := execOps_params_of_not_mem stepFn rest _ hrest
      _ = s.params := execOp_params_of_ne stepFn s op hop

theorem optimStep_not_mem_validationOps (nVal : Nat) : Op.optimStep ∉ validationOps nVal := by
  intro h
  rcases List.mem_cons.mp h with h | h
  · exact Op.noConfusion h
  rcases List.mem_append.mp h with h | h
  · obtain ⟨l, hl, hm⟩ := List.mem_flatten.mp h
    rw [(List.mem_replicate.mp hl).2] at hm
    rcases List.mem_cons.mp hm with h | h
    · exact Op.noConfusion h
    · rcases List.mem_cons.mp h with h | h
      · exact Op.noConfusion h
      · exact List.not_mem_nil _ h
  · rcases List.mem_cons.mp h with h | h
    · exact Op.noConfusion h
    · exact List.not_mem_nil _ h

theorem execTrace_const_of_inert {P : Type} (stepFn : P → P) :
    ∀ (ops : List Op) (s : MachState P),
      (∀ op ∈ ops, op = Op.forward ∨ op = Op.computeLoss) →
      ∀ op st, (op, st) ∈ execTrace stepFn s ops → st = s
  | [], _, _, _, _, h => absurd h (List.not_mem_nil _)
  | o :: rest, s, hops, op, st, h => by
    have ho : execOp stepFn s o = s := by
      rcases hops o (List.Mem.head rest) with he | he <;> rw [he] <;> rfl
    rcases List.mem_cons.mp h with h | h
    · exact congrArg Prod.snd h
    · have := execTrace_const_of_inert stepFn rest (execOp stepFn s o)
        (fun x hx => hops x (List.Mem.tail o hx)) op st h
      rw [this, ho]

theorem execTrace_append {P : Type} (stepFn : P → P) :
    ∀ (l1 l2 : List Op) (s : MachState P),
      execTrace stepFn s (l1 ++ l2)
        = execTrace stepFn s l1 ++ execTrace stepFn (execOps stepFn s l1) l2
  | [], l2, s => rfl
  | o :: rest, l2, s => by
    show (o, s) :: execTrace stepFn (execOp stepFn s o) (rest ++ l2)
        = (o, s) :: (execTrace stepFn (execOp stepFn s o) rest
            ++ execTrace stepFn (execOps stepFn (execOp stepFn s o) rest) l2)
    rw [execTrace_append stepFn rest l2 (execOp stepFn s o)]

/-- Claim C9: the validation pass of each epoch neither performs an optimizer
step nor changes the transformer parameters — the parameters seen by the
scheduler and early-stopping bookkeeping are the ones at the end of the
training pass — and every validation forward executes with gradient tracking
disabled (inside `with no_grad():`). -/
theorem claim_C9 (P : Type) (stepFn : P → P) (s : MachState P) (nVal : Nat) :
    (execOps stepFn s (validationOps nVal)).params = s.params ∧
      (∀ op st, (op, st) ∈ execTrace stepFn s (validationOps nVal) → op = Op.forward →
        st.gradMode = false) ∧
      Op.optimStep ∉ validationOps nVal := by
  refine ⟨execOps_params_of_not_mem stepFn _ s (optimStep_not_mem_validationOps nVal), ?_,
    optimStep_not_mem_validationOps nVal⟩
  intro op st hmem hop
  have hinert : ∀ x ∈ (List.replicate nVal [Op.forward, Op.computeLoss]).flatten,
      x = Op.forward ∨ x = Op.computeLoss := by
    intro x hx
    obtain ⟨l, hl, hm⟩ := List.mem_flatten.mp hx
    rw [(List.mem_replicate.mp hl).2] at hm
    rcases List.mem_cons.mp hm with h | h
    · exact Or.inl h
    · rcases List.mem_cons.mp h with h | h
      · exact Or.inr h
      · exact absurd h (List.not_mem_nil _)
  rw [validationOps] at hmem
  have hmem2 : (op, st) ∈ ((Op.noGradPush, s) ::
      execTrace stepFn (execOp stepFn s Op.noGradPush)
        ((List.replicate nVal [Op.forward, Op.computeLoss]).flatten ++ [Op.noGradPop])) := hmem
  rcases List.mem_cons.mp hmem2 with h | h
  · rw [hop] at h
    exact Op.noConfusion (congrArg Prod.fst h)
  · rw [execTrace_append] at h
    rcases List.mem_append.mp h with h | h
    · have := execTrace_const_of_inert stepFn _ _ hinert op st h
      rw [this]
      rfl
    · have h2 := List.mem_singleton.mp h
      rw [hop] at h2
      exact Op.noConfusion (congrArg Prod.fst h2)

/-- Claim C9 (witness): the statement at a concrete machine over `ℕ`
parameters with one validation batch. -/
theorem claim_C9_witness :
    (execOps Nat.succ ⟨0, true⟩ (validationOps 1)).params = (⟨0, true⟩ : MachState ℕ).params ∧
      (∀ op st, (op, st) ∈ execTrace Nat.succ (⟨0, true⟩ : MachState ℕ) (validationOps 1) →
        op = Op.forward → st.gradMode = false) ∧
      Op.optimStep ∉ validationOps 1 :=
  claim_C9 ℕ Nat.succ ⟨0, true⟩ 1

/-! ## Claim about the inference output shape -/

/-- Claim C4: an inference run over `observed.length` observed data points,
keeping `nDraws` posterior draws per observation from a simulated parameter
matrix whose rows have `nParams` entries, stores a samples array of shape
exactly `(observed.length, nDraws, nParams)`. -/
theorem claim_C4 (observed : List (List ℚ)) (simParams : List (List ℚ))
    (select : List ℚ → List Nat) (nDraws nParams : Nat)
    (hp : ∀ r ∈ simParams, r.length = nParams)
    (hsel : ∀ o ∈ observed, nDraws ≤ (select o).length)
    (hidx : ∀ o ∈ observed, ∀ j ∈ select o, j < simParams.length) :
    shape3 (inferSamples observed simParams select nDraws)
      observed.length nDraws nParams := by
  refine ⟨by simp [inferSamples], ?_⟩
  intro m hm
  obtain ⟨o, ho, rfl⟩ := List.mem_map.mp hm
  constructor
  · rw [List.length_map, List.length_take]
    exact Nat.min_eq_left (hsel o ho)
  · intro r hr
    obtain ⟨j, hj, rfl⟩ := List.mem_map.mp hr
    have hjlt : j < simParams.length := hidx o ho j (List.mem_of_mem_take hj)
    have hget : simParams.getD j [] = simParams[j] := by
      simp [List.getD_eq_getElem?_getD, List.getElem?_eq_getElem hjlt]
    rw [hget]
    exact hp _ (List.getElem_mem hjlt)

/-- Claim C4 (witness): the shape statement at a concrete inference run with
two observations, two draws and two parameters. -/
theorem claim_C4_witness :
    shape3 (inferSamples [[1], [2]] [[3, 4], [5, 6], [7, 8]] (fun _ => [0, 2, 1]) 2)
      (([[1], [2]] : List (List ℚ)).length) 2 2 :=
  claim_C4 [[1], [2]] [[3, 4], [5, 6], [7, 8]] (fun _ => [0, 2, 1]) 2 2
    (by decide) (by decide) (by decide)

end Summaries
